import Mathlib

/-!
Shallow embedding of `mne/time_frequency/psd.py` (continuous and epoched
power-spectral-density estimation) and of the collaborators it uses.

Numeric arrays are lists of rationals (an idealisation of floating point
arrays: none of the verified properties depends on the number field).
The pyplot figure registry is passed as explicit state, since the module
creates, draws into and closes figures.  Failures of dispatched per-unit
estimations are `Except` values.

External collaborators `parallel_func` (mne.parallel), `pick_types`
(mne.fiff.pick) and `make_projector_info` (mne.fiff.proj) are part of this
repository but not under the sources given; they are modelled from the
specification, as marked in their doc comments.  The single-segment
estimator `pylab.psd` is a third-party black box: its numeric part is a
parameter `k : SpecPsd`, while its drawing side effect on the current
figure is part of the embedding.
-/

namespace MNE

abbrev Vec : Type := List ℚ
abbrev Mat : Type := List Vec

/-- numpy fancy indexing `m[sel]` on the row axis (duplicates preserved,
out-of-range modelled by an empty-row default). -/
def rowSelect (m : Mat) (sel : List ℕ) : Mat :=
  sel.map (fun i => m.getD i [])

/-- numpy fancy indexing `m[:, sel]` on the column axis. -/
def colSelect (m : Mat) (sel : List ℕ) : Mat :=
  m.map (fun r => sel.map (fun j => r.getD j 0))

def vecAdd (u v : Vec) : Vec := List.zipWith (· + ·) u v

def vecScale (c : ℚ) (v : Vec) : Vec := v.map (fun x => c * x)

/-- Linear combination of the rows of `rows` with coefficients `coeffs`:
one row of a matrix product. -/
def linComb (coeffs : Vec) (rows : Mat) : Vec :=
  (List.zip coeffs rows).foldr (fun p acc => vecAdd (vecScale p.1 p.2) acc)
    (List.replicate (rows.headD []).length 0)

/-- `np.dot` on 2-D arrays. -/
def matMul (A B : Mat) : Mat := A.map (fun r => linComb r B)

/-- `mask = (freqs >= fmin) & (freqs <= fmax)` from `compute_raw_psd`
and `_compute_psd`. -/
def freqMask (freqs : Vec) (fmin fmax : ℚ) : List Bool :=
  freqs.map (fun f => decide (fmin ≤ f) && decide (f ≤ fmax))

/-- numpy boolean-mask indexing `xs[mask]` along one axis. -/
def applyMask {α : Type} (xs : List α) (mask : List Bool) : List α :=
  ((xs.zip mask).filter (fun p => p.2)).map (fun p => p.1)

/-- One pyplot figure: its number and how many artists have been drawn
into it. -/
structure Fig where
  id : ℕ
  drawCount : ℕ
deriving DecidableEq

/-- The shared pyplot state: the registry of open figures, most recently
activated first (the head is the current figure). -/
structure PlotState where
  figs : List Fig
deriving DecidableEq

/-- A fresh figure number: larger than every open figure's number. -/
def freshFigId (st : PlotState) : ℕ :=
  (st.figs.map Fig.id).foldr max 0 + 1

/-- `pl.figure()`: registers a fresh empty figure and makes it current. -/
def pl_figure (st : PlotState) : ℕ × PlotState :=
  (freshFigId st, ⟨⟨freshFigId st, 0⟩ :: st.figs⟩)

/-- `pl.close(fig)`: removes the figure from the registry. -/
def pl_close (fid : ℕ) (st : PlotState) : PlotState :=
  ⟨st.figs.filter (fun f => f.id ≠ fid)⟩

/-- One drawing operation into the current figure (creating a figure
implicitly when none is open, as pyplot does). -/
def pl_draw (st : PlotState) : PlotState :=
  match st.figs with
  | [] => ⟨[⟨1, 1⟩]⟩
  | f :: rest => ⟨⟨f.id, f.drawCount + 1⟩ :: rest⟩

/-- `pl_draw` iterated `m` times. -/
def drawN : ℕ → PlotState → PlotState
  | 0, st => st
  | m + 1, st => drawN m (pl_draw st)

/-- The numeric part of the external single-segment estimator
`pylab.psd(d, Fs=Fs, NFFT=NFFT)`: a black box mapping a signal, the
sampling rate and the window length to a `(power, freqs)` pair, or
raising. -/
abbrev SpecPsd : Type := Vec → ℚ → ℕ → Except String (Vec × Vec)

/-- `pl.psd(d, Fs=Fs, NFFT=NFFT)`: computes the black-box estimate and
draws the estimate into the current figure (pyplot `psd` is a plotting
command). -/
def pl_psd (k : SpecPsd) (Fs : ℚ) (nfft : ℕ) (d : Vec) (st : PlotState) :
    Except String (Vec × Vec) × PlotState :=
  (k d Fs nfft, pl_draw st)

/-- Modelled from the spec: the parallel dispatcher of `mne.parallel`
(`parallel_func`, not under the given sources) executes one task per
input and propagates the first failure with no partial results; with one
worker this is plain sequential execution threading the shared state, and
with more workers the spec states the outputs are identical in value and
order ("worker count does not affect output values").  This function is
the sequential semantics used by both estimators. -/
def runWorkers {α β : Type} (step : α → PlotState → Except String β × PlotState) :
    List α → PlotState → Except String (List β) × PlotState
  | [], st => (.ok [], st)
  | x :: rest, st =>
    match step x st with
    | (.error e, st1) => (.error e, st1)
    | (.ok b, st1) =>
      match runWorkers step rest st1 with
      | (.error e, st2) => (.error e, st2)
      | (.ok bs, st2) => (.ok (b :: bs), st2)

/-- Sequencing of per-unit fallible results: the value part of
`runWorkers`, first error wins, no partial results. -/
def mapE {α β : Type} (g : α → Except String β) : List α → Except String (List β)
  | [] => .ok []
  | x :: rest =>
    match g x with
    | .error e => .error e
    | .ok b =>
      match mapE g rest with
      | .error e => .error e
      | .ok bs => .ok (b :: bs)

/-- Sequencing of optional results (used by the pooled-backend model). -/
def mapO {α β : Type} (g : α → Option β) : List α → Option (List β)
  | [] => some []
  | x :: rest =>
    match g x with
    | none => none
    | some b =>
      match mapO g rest with
      | none => none
      | some bs => some (b :: bs)

/-- First completed result recorded for task index `i`. -/
def findResult {β : Type} (i : ℕ) : List (ℕ × β) → Option β
  | [] => none
  | (j, v) :: rest => if j = i then some v else findResult i rest

/-- Modelled from the spec: the pooled backend of the dispatcher runs the
pure tasks in an arbitrary completion order `sched` (a permutation of the
task indices), records `(index, result)` pairs as they complete, and
reassembles the output index-aligned with the input sequence. -/
def pooledRun {α β : Type} (f : α → β) (xs : List α) (sched : List ℕ) :
    Option (List β) :=
  let completed := sched.filterMap (fun i => (xs[i]?).map (fun x => (i, f x)))
  mapO (fun i => findResult i completed) (List.range xs.length)

/-- Channel type tags at the abstraction level of the spec: a channel is
either of a physiological signal type (MEG/EEG) or not. -/
inductive ChType : Type
  | physiological
  | other
deriving DecidableEq

/-- Measurement metadata (`raw.info` / `epochs.info`): sampling rate,
channel count, per-channel type tags and the indices of channels flagged
as bad. -/
structure Info where
  sfreq : ℚ
  nchan : ℕ
  chTypes : List ChType
  bads : List ℕ

/-- Modelled from the spec: `pick_types(info, meg=True, eeg=True,
exclude='bads')` of `mne.fiff.pick` (not under the given sources) selects
all channels tagged as physiological-signal types, excluding any flagged
as bad. -/
def pick_types (info : Info) : List ℕ :=
  (List.range info.nchan).filter
    (fun i => info.chTypes.getD i .other = .physiological && decide (i ∉ info.bads))

/-- A continuous recording: metadata, the channels-by-samples signal
matrix, the time-to-sample-index map (`raw.time_as_index`), and the
projection matrix that `make_projector_info(raw.info)` (mne.fiff.proj,
not under the given sources, treated by the spec as an external linear
transform) would build from the metadata. -/
structure Raw where
  info : Info
  data : Mat
  timeIndex : ℚ → ℕ
  projMatrix : Mat

/-- An epoched recording: shared metadata and one signal matrix per
epoch. -/
structure Epochs where
  info : Info
  data : List Mat

/-- `raw[picks, start:(stop + 1)]` data part: select channels (all when
`picks is None`), then the inclusive sample range `start..stop`. -/
def rawSlice (raw : Raw) (picks : Option (List ℕ)) (start stop : ℕ) : Mat :=
  let rows := match picks with
    | some sel => rowSelect raw.data sel
    | none => raw.data
  rows.map (fun r => (r.drop start).take (stop + 1 - start))

/-- Lines 48-60 of `compute_raw_psd`: resolve the time range, slice the
selected channels, and, when `proj` is set, left-multiply by the
projection matrix restricted to the selection on both axes
(`proj[picks][:, picks]`), or by the full matrix when no selection is
given. -/
def rawPrepData (raw : Raw) (tmin tmax : ℚ) (picks : Option (List ℕ))
    (proj : Bool) : Mat :=
  let start := raw.timeIndex tmin
  let stop := raw.timeIndex tmax
  let data := rawSlice raw picks start stop
  if proj then
    match picks with
    | some sel => matMul (colSelect (rowSelect raw.projMatrix sel) sel) data
    | none => matMul raw.projMatrix data
  else data

/-- Lines 73-78 of `compute_raw_psd` and lines 85-90 of `_compute_psd`:
take the first unit's frequency vector (`out[0][1]`, an IndexError on an
empty result list), stack the power rows, and apply the frequency mask to
the power's last axis and to the frequency vector. -/
def stackMask (out : List (Vec × Vec)) (fmin fmax : ℚ) : Except String (Mat × Vec) :=
  match out with
  | [] => .error "IndexError: list index out of range"
  | o :: _ =>
    let freqs := o.2
    let mask := freqMask freqs fmin fmax
    .ok ((out.map Prod.fst).map (fun r => applyMask r mask), applyMask freqs mask)

/-- `compute_raw_psd(raw, tmin, tmax, picks, fmin, fmax, NFFT, n_jobs,
plot, proj)`: prepare the data, open a figure, dispatch `pl.psd` over the
channel rows, close the figure only when `plot` is false (and only on the
success path, since a worker failure propagates before the close), then
mask and stack.  `njobs` selects the dispatcher backend only (modelled
from the spec: backends agree in value, see `runWorkers`). -/
def compute_raw_psd (k : SpecPsd) (raw : Raw) (tmin tmax : ℚ)
    (picks : Option (List ℕ)) (fmin fmax : ℚ) (nfft : ℕ) (njobs : ℕ)
    (plot : Bool) (proj : Bool) (st : PlotState) :
    Except String (Mat × Vec) × PlotState :=
  let _ := njobs
  let data := rawPrepData raw tmin tmax picks proj
  let Fs := raw.info.sfreq
  let p := pl_figure st
  match runWorkers (pl_psd k Fs nfft) data p.2 with
  | (.error e, st2) => (.error e, st2)
  | (.ok out, st2) =>
    let st3 := if plot then st2 else pl_close p.1 st2
    (stackMask out fmin fmax, st3)

/-- `_compute_psd(data, fmin, fmax, Fs, n_fft, psd)`: the per-epoch task;
runs the estimator over the channel rows (each call drawing into the
current figure, since the passed `psd` is `plt.psd`), then masks and
stacks exactly as the continuous estimator does. -/
def _compute_psd (k : SpecPsd) (data : Mat) (fmin fmax : ℚ) (Fs : ℚ)
    (nfft : ℕ) (st : PlotState) : Except String (Mat × Vec) × PlotState :=
  match runWorkers (pl_psd k Fs nfft) data st with
  | (.error e, st1) => (.error e, st1)
  | (.ok out, st1) => (stackMask out fmin fmax, st1)

/-- `compute_epochs_psd(epochs, picks, fmin, fmax, n_fft, n_jobs)`:
resolve the default channel selection via `pick_types` when none is
given, open a figure, dispatch `_compute_psd` over the epochs (each task
receiving the selected-channel slice of that epoch), close the figure on
the success path, and return the stacked per-epoch power matrices with
the first epoch's (already masked) frequency vector. -/
def compute_epochs_psd (k : SpecPsd) (epochs : Epochs)
    (picks : Option (List ℕ)) (fmin fmax : ℚ) (nfft : ℕ) (njobs : ℕ)
    (st : PlotState) : Except String (List Mat × Vec) × PlotState :=
  let _ := njobs
  let Fs := epochs.info.sfreq
  let sel := match picks with
    | some p => p
    | none => pick_types epochs.info
  let p := pl_figure st
  match runWorkers
      (fun data s => _compute_psd k (rowSelect data sel) fmin fmax Fs nfft s)
      epochs.data p.2 with
  | (.error e, st2) => (.error e, st2)
  | (.ok out, st2) =>
    let st3 := pl_close p.1 st2
    match out with
    | [] => (.error "ValueError: need more than 0 values to unpack", st3)
    | o :: _ => (.ok (out.map Prod.fst, o.2), st3)

/-- Per-unit success of the black-box estimator on a given signal: it
returns `ok` with the common frequency vector `F` and a power vector of
matching length (the data-model invariant `power.shape[-1] ==
frequency.shape[0]`, identical frequency grid across units). -/
def kGoodb (k : SpecPsd) (Fs : ℚ) (nfft : ℕ) (F : Vec) (d : Vec) : Bool :=
  match k d Fs nfft with
  | .ok (pw, fr) => decide (fr = F) && decide (pw.length = F.length)
  | .error _ => false

/-- The power vector the black box returns on a signal (junk on
failure). -/
def kPow (k : SpecPsd) (Fs : ℚ) (nfft : ℕ) (d : Vec) : Vec :=
  match k d Fs nfft with
  | .ok (pw, _) => pw
  | .error _ => []

/-- The value (non-state) part of running the estimator over the rows of
a data matrix and mask-stacking, common to `compute_raw_psd` and
`_compute_psd`. -/
def psdListVal (k : SpecPsd) (Fs : ℚ) (nfft : ℕ) (fmin fmax : ℚ)
    (data : Mat) : Except String (Mat × Vec) :=
  match mapE (fun d => k d Fs nfft) data with
  | .error e => .error e
  | .ok out => stackMask out fmin fmax

/-- The value (non-state) part of `compute_epochs_psd` with an explicit
selection. -/
def epochsVal (k : SpecPsd) (sel : List ℕ) (fmin fmax Fs : ℚ) (nfft : ℕ)
    (eps : List Mat) : Except String (List Mat × Vec) :=
  match mapE (fun ep => psdListVal k Fs nfft fmin fmax (rowSelect ep sel)) eps with
  | .error e => .error e
  | .ok out =>
    match out with
    | [] => .error "ValueError: need more than 0 values to unpack"
    | o :: _ => .ok (out.map Prod.fst, o.2)

/-- Concrete black box for witnesses: power is the signal itself, over a
fixed five-point frequency grid. -/
def kGrid : SpecPsd := fun d _ _ => .ok (d, [0, 5, 10, 15, 20])

/-- Concrete black box for witnesses: fails exactly on the signal `[2]`. -/
def kFail2 : SpecPsd := fun d _ _ =>
  if d = [2] then .error "boom" else .ok (d, [0])

/-- Concrete black box for witnesses: the frequency grid depends on the
signal (units disagree). -/
def kVarF : SpecPsd := fun d _ _ =>
  if d = [1] then .ok ([9], [100]) else .ok ([8], [200])

/-- Concrete metadata for witnesses: `n` good physiological channels. -/
def infoW (n : ℕ) : Info :=
  { sfreq := 100, nchan := n, chTypes := List.replicate n .physiological,
    bads := [] }

/-- Concrete metadata for witnesses: two physiological channels, the
second flagged bad. -/
def infoBad : Info :=
  { sfreq := 100, nchan := 2, chTypes := [.physiological, .physiological],
    bads := [1] }

/-- Concrete recording for witnesses: two channels of five samples. -/
def rawTwo : Raw :=
  { info := infoW 2
    data := [[1, 2, 3, 4, 5], [6, 7, 8, 9, 10]]
    timeIndex := fun t => if t ≤ 0 then 0 else 4
    projMatrix := [[1, 0], [0, 1]] }

/-- Concrete recording for witnesses: five one-sample channels. -/
def rawFive : Raw :=
  { info := infoW 5, data := [[1], [2], [3], [4], [5]],
    timeIndex := fun _ => 0, projMatrix := [] }

/-- Concrete recording for witnesses: two one-sample channels. -/
def rawVar : Raw :=
  { info := infoW 2, data := [[1], [2]], timeIndex := fun _ => 0,
    projMatrix := [] }

/-- Concrete epoch collection for witnesses: five one-channel epochs. -/
def epochsFive : Epochs :=
  { info := infoW 1, data := [[[1]], [[2]], [[3]], [[4]], [[5]]] }

/-- Concrete epoch collection for witnesses: one epoch of two channels of
five samples. -/
def epochsTwo : Epochs :=
  { info := infoW 2, data := [[[1, 2, 3, 4, 5], [6, 7, 8, 9, 10]]] }

/-- Concrete epoch collection for witnesses: one epoch of two one-sample
channels. -/
def epochsVar : Epochs :=
  { info := infoW 2, data := [[[1], [2]]] }

theorem runWorkers_fst {α β : Type} (step : α → PlotState → Except String β × PlotState)
    (g : α → Except String β) (hstep : ∀ x s, (step x s).1 = g x)
    (xs : List α) (st : PlotState) :
    (runWorkers step xs st).1 = mapE g xs := by
  induction xs generalizing st with
  | nil => rfl
  | cons x rest ih =>
    rcases hs : step x st with ⟨r, st1⟩
    have hr : r = g x := by rw [← hstep x st, hs]
    rcases hrw : runWorkers step rest st1 with ⟨r2, st2⟩
    have hr2 : r2 = mapE g rest := by rw [← ih st1, hrw]
    cases r with
    | error e => simp [runWorkers, mapE, hs, ← hr]
    | ok b =>
      cases r2 with
      | error e2 => simp [runWorkers, mapE, hs, hrw, ← hr, ← hr2]
      | ok bs => simp [runWorkers, mapE, hs, hrw, ← hr, ← hr2]

theorem drawN_comp (a b : ℕ) (st : PlotState) :
    drawN a (drawN b st) = drawN (b + a) st := by
  induction b generalizing st with
  | zero =>
    show drawN a st = drawN (0 + a) st
    rw [Nat.zero_add]
  | succ b ih =>
    show drawN a (drawN b (pl_draw st)) = drawN (b + 1 + a) st
    rw [ih, Nat.succ_add]
    rfl

theorem runWorkers_snd {α β : Type} (step : α → PlotState → Except String β × PlotState)
    (hstep : ∀ x s, ∃ m, (step x s).2 = drawN m s)
    (xs : List α) (st : PlotState) :
    ∃ m, (runWorkers step xs st).2 = drawN m st := by
  induction xs generalizing st with
  | nil => exact ⟨0, rfl⟩
  | cons x rest ih =>
    rcases hs : step x st with ⟨r, st1⟩
    rcases hstep x st with ⟨m1, hm1⟩
    rw [hs] at hm1
    have hm1' : st1 = drawN m1 st := hm1
    cases r with
    | error e => exact ⟨m1, by simp [runWorkers, hs, hm1']⟩
    | ok b =>
      rcases ih st1 with ⟨m2, hm2⟩
      refine ⟨m1 + m2, ?_⟩
      rcases hrw : runWorkers step rest st1 with ⟨r2, st2⟩
      rw [hrw] at hm2
      have hm2' : st2 = drawN m2 st1 := hm2
      have : st2 = drawN (m1 + m2) st := by
        rw [hm2', hm1', drawN_comp]
      cases r2 with
      | error e2 => simp [runWorkers, hs, hrw, this]
      | ok bs => simp [runWorkers, hs, hrw, this]

theorem mapE_ok_of_forall {α β : Type} (g : α → Except String β) (h : α → β)
    (xs : List α) (hall : ∀ x ∈ xs, g x = .ok (h x)) :
    mapE g xs = .ok (xs.map h) := by
  induction xs with
  | nil => rfl
  | cons x rest ih =>
    have hx := hall x (by simp)
    have hrest := ih (fun y hy => hall y (by simp [hy]))
    simp [mapE, hx, hrest]

theorem mapE_error_of_mem {α β : Type} (g : α → Except String β)
    (xs : List α) (x : α) (hx : x ∈ xs) (e : String) (he : g x = .error e) :
    ∃ e2, mapE g xs = .error e2 := by
  induction xs with
  | nil => cases hx
  | cons y rest ih =>
    cases hg : g y with
    | error e3 => exact ⟨e3, by simp [mapE, hg]⟩
    | ok b =>
      rcases List.mem_cons.mp hx with rfl | hmem
      · rw [hg] at he
        cases he
      · rcases ih hmem with ⟨e2, h2⟩
        exact ⟨e2, by simp [mapE, hg, h2]⟩

theorem mapE_ok_cons_inv {α β : Type} (g : α → Except String β) (x : α)
    (rest : List α) (out : List β)
    (h : mapE g (x :: rest) = .ok out) :
    ∃ b bs, g x = .ok b ∧ mapE g rest = .ok bs ∧ out = b :: bs := by
  cases hg : g x with
  | error e =>
    rw [mapE, hg] at h
    cases h
  | ok b =>
    rw [mapE, hg] at h
    cases hrest : mapE g rest with
    | error e =>
      rw [hrest] at h
      cases h
    | ok bs =>
      rw [hrest] at h
      exact ⟨b, bs, rfl, rfl, (Except.ok.injEq _ _ ▸ h : b :: bs = out).symm⟩

theorem mapE_ok_length {α β : Type} (g : α → Except String β)
    (xs : List α) (out : List β) (h : mapE g xs = .ok out) :
    out.length = xs.length := by
  induction xs generalizing out with
  | nil =>
    rw [mapE] at h
    cases h
    rfl
  | cons x rest ih =>
    rcases mapE_ok_cons_inv g x rest out h with ⟨b, bs, _, hbs, rfl⟩
    simp [ih bs hbs]

theorem mapE_ok_mem_inv {α β : Type} (g : α → Except String β)
    (xs : List α) (out : List β) (h : mapE g xs = .ok out) (b : β)
    (hb : b ∈ out) :
    ∃ x ∈ xs, g x = .ok b := by
  induction xs generalizing out with
  | nil =>
    rw [mapE] at h
    cases h
    cases hb
  | cons x rest ih =>
    rcases mapE_ok_cons_inv g x rest out h with ⟨b2, bs, hgx, hbs, rfl⟩
    rcases List.mem_cons.mp hb with rfl | hmem
    · exact ⟨x, by simp, hgx⟩
    · rcases ih bs hbs hmem with ⟨y, hy, hgy⟩
      exact ⟨y, by simp [hy], hgy⟩

theorem mapO_ok_of_forall {α β : Type} (g : α → Option β) (h : α → β)
    (xs : List α) (hall : ∀ x ∈ xs, g x = some (h x)) :
    mapO g xs = some (xs.map h) := by
  induction xs with
  | nil => rfl
  | cons x rest ih =>
    have hx := hall x (by simp)
    have hrest := ih (fun y hy => hall y (by simp [hy]))
    simp [mapO, hx, hrest]

theorem _compute_psd_fst (k : SpecPsd) (data : Mat) (fmin fmax Fs : ℚ)
    (nfft : ℕ) (st : PlotState) :
    (_compute_psd k data fmin fmax Fs nfft st).1
      = psdListVal k Fs nfft fmin fmax data := by
  unfold _compute_psd psdListVal
  rcases hrw : runWorkers (pl_psd k Fs nfft) data st with ⟨r, st1⟩
  have hr : r = mapE (fun d => k d Fs nfft) data := by
    rw [← runWorkers_fst (pl_psd k Fs nfft) (fun d => k d Fs nfft)
      (fun _ _ => rfl) data st, hrw]
  cases r with
  | error e => simp [hrw, ← hr]
  | ok out => simp [hrw, ← hr]

theorem _compute_psd_snd (k : SpecPsd) (data : Mat) (fmin fmax Fs : ℚ)
    (nfft : ℕ) (st : PlotState) :
    ∃ m, (_compute_psd k data fmin fmax Fs nfft st).2 = drawN m st := by
  rcases runWorkers_snd (pl_psd k Fs nfft) (fun _ s => ⟨1, rfl⟩) data st with ⟨m, hm⟩
  refine ⟨m, ?_⟩
  unfold _compute_psd
  rcases hrw : runWorkers (pl_psd k Fs nfft) data st with ⟨r, st1⟩
  rw [hrw] at hm
  cases r with
  | error e => exact hm
  | ok out => exact hm

theorem compute_raw_psd_fst (k : SpecPsd) (raw : Raw) (tmin tmax : ℚ)
    (picks : Option (List ℕ)) (fmin fmax : ℚ) (nfft njobs : ℕ)
    (plot proj : Bool) (st : PlotState) :
    (compute_raw_psd k raw tmin tmax picks fmin fmax nfft njobs plot proj st).1
      = psdListVal k raw.info.sfreq nfft fmin fmax
          (rawPrepData raw tmin tmax picks proj) := by
  unfold compute_raw_psd psdListVal
  rcases hrw : runWorkers (pl_psd k raw.info.sfreq nfft)
      (rawPrepData raw tmin tmax picks proj) (pl_figure st).2 with ⟨r, st1⟩
  have hr : r = mapE (fun d => k d raw.info.sfreq nfft)
      (rawPrepData raw tmin tmax picks proj) := by
    rw [← runWorkers_fst (pl_psd k raw.info.sfreq nfft)
      (fun d => k d raw.info.sfreq nfft) (fun _ _ => rfl)
      (rawPrepData raw tmin tmax picks proj) (pl_figure st).2, hrw]
  cases r with
  | error e => simp [hrw, ← hr]
  | ok out => simp [hrw, ← hr]

theorem compute_epochs_psd_fst (k : SpecPsd) (epochs : Epochs) (sel : List ℕ)
    (fmin fmax : ℚ) (nfft njobs : ℕ) (st : PlotState) :
    (compute_epochs_psd k epochs (some sel) fmin fmax nfft njobs st).1
      = epochsVal k sel fmin fmax epochs.info.sfreq nfft epochs.data := by
  unfold compute_epochs_psd epochsVal
  rcases hrw : runWorkers
      (fun data s =>
        _compute_psd k (rowSelect data sel) fmin fmax epochs.info.sfreq nfft s)
      epochs.data (pl_figure st).2 with ⟨r, st1⟩
  have hr : r = mapE
      (fun ep => psdListVal k epochs.info.sfreq nfft fmin fmax (rowSelect ep sel))
      epochs.data := by
    rw [← runWorkers_fst _
      (fun ep => psdListVal k epochs.info.sfreq nfft fmin fmax (rowSelect ep sel))
      (fun ep s => _compute_psd_fst k (rowSelect ep sel) fmin fmax
        epochs.info.sfreq nfft s)
      epochs.data (pl_figure st).2, hrw]
  cases r with
  | error e => simp [hrw, ← hr]
  | ok out =>
    cases out with
    | nil => simp [hrw, ← hr]
    | cons o rest => simp [hrw, ← hr]

theorem kGoodb_spec (k : SpecPsd) (Fs : ℚ) (nfft : ℕ) (F d : Vec)
    (h : kGoodb k Fs nfft F d = true) :
    k d Fs nfft = .ok (kPow k Fs nfft d, F)
      ∧ (kPow k Fs nfft d).length = F.length := by
  cases hk : k d Fs nfft with
  | error e => simp [kGoodb, hk] at h
  | ok pr =>
    obtain ⟨pw, fr⟩ := pr
    have h2 : fr = F ∧ pw.length = F.length := by simpa [kGoodb, hk] using h
    have hkp : kPow k Fs nfft d = pw := by simp [kPow, hk]
    obtain ⟨hfr, hlen⟩ := h2
    subst hfr
    refine ⟨?_, ?_⟩
    · rw [hkp]
    · rw [hkp]
      exact hlen

theorem psdListVal_of_good (k : SpecPsd) (Fs : ℚ) (nfft : ℕ) (fmin fmax : ℚ)
    (F : Vec) (data : Mat)
    (hk : ∀ d ∈ data, kGoodb k Fs nfft F d = true) :
    psdListVal k Fs nfft fmin fmax data
      = stackMask (data.map (fun d => (kPow k Fs nfft d, F))) fmin fmax := by
  unfold psdListVal
  rw [mapE_ok_of_forall _ (fun d => (kPow k Fs nfft d, F)) data
    (fun d hd => (kGoodb_spec k Fs nfft F d (hk d hd)).1)]

theorem stackMask_cons (o : Vec × Vec) (rest : List (Vec × Vec)) (fmin fmax : ℚ) :
    stackMask (o :: rest) fmin fmax
      = .ok (((o :: rest).map Prod.fst).map
          (fun r => applyMask r (freqMask o.2 fmin fmax)),
          applyMask o.2 (freqMask o.2 fmin fmax)) := rfl

theorem rowSelect_length (m : Mat) (sel : List ℕ) :
    (rowSelect m sel).length = sel.length := by
  simp [rowSelect]

theorem matMul_length (A B : Mat) : (matMul A B).length = A.length := by
  simp [matMul]

theorem rawPrepData_some_length (raw : Raw) (tmin tmax : ℚ) (sel : List ℕ)
    (proj : Bool) :
    (rawPrepData raw tmin tmax (some sel) proj).length = sel.length := by
  unfold rawPrepData rawSlice
  cases proj <;> simp [matMul, colSelect, rowSelect]

theorem getD_range_map {α : Type} (xs : List α) (dflt : α) :
    (List.range xs.length).map (fun i => xs.getD i dflt) = xs := by
  induction xs with
  | nil => rfl
  | cons a t ih =>
    simp only [List.length_cons, List.range_succ_eq_map, List.map_cons, List.map_map,
      List.getD_cons_zero, List.cons.injEq, true_and]
    rw [show ((fun i => (a :: t).getD i dflt) ∘ Nat.succ) = (fun i => t.getD i dflt) from
      funext fun i => List.getD_cons_succ]
    exact ih

theorem rowSelect_range_self (m : Mat) : rowSelect m (List.range m.length) = m :=
  getD_range_map m []

theorem mem_le_foldr_max (x : ℕ) (l : List ℕ) (hx : x ∈ l) :
    x ≤ l.foldr max 0 := by
  induction l with
  | nil => cases hx
  | cons y t ih =>
    rcases List.mem_cons.mp hx with rfl | hm
    · exact le_max_left x (t.foldr max 0)
    · exact le_trans (ih hm) (le_max_right y (t.foldr max 0))

theorem freshFigId_not_mem (st : PlotState) :
    freshFigId st ∉ st.figs.map Fig.id := by
  intro h
  have hle := mem_le_foldr_max _ _ h
  simp only [freshFigId] at hle
  omega

theorem drawN_cons (m : ℕ) (f : Fig) (rest : List Fig) :
    drawN m ⟨f :: rest⟩ = ⟨⟨f.id, f.drawCount + m⟩ :: rest⟩ := by
  induction m generalizing f with
  | zero => rfl
  | succ m ih =>
    show drawN m (pl_draw ⟨f :: rest⟩) = _
    rw [show pl_draw ⟨f :: rest⟩ = ⟨⟨f.id, f.drawCount + 1⟩ :: rest⟩ from rfl,
      ih ⟨f.id, f.drawCount + 1⟩]
    simp [Nat.add_assoc, Nat.add_comm 1 m]

theorem pl_close_fresh (st : PlotState) (c : ℕ) :
    pl_close (freshFigId st) ⟨⟨freshFigId st, c⟩ :: st.figs⟩ = st := by
  unfold pl_close
  congr 1
  rw [List.filter_cons_of_neg (by simp)]
  exact List.filter_eq_self.mpr (fun f hf => by
    have hne : f.id ≠ freshFigId st := fun heq =>
      freshFigId_not_mem st (heq ▸ List.mem_map_of_mem Fig.id hf)
    simpa using hne)

theorem freqMask_cons (f : ℚ) (fs : Vec) (fmin fmax : ℚ) :
    freqMask (f :: fs) fmin fmax
      = (decide (fmin ≤ f) && decide (f ≤ fmax)) :: freqMask fs fmin fmax := rfl

theorem freqMask_length (freqs : Vec) (fmin fmax : ℚ) :
    (freqMask freqs fmin fmax).length = freqs.length := by
  simp [freqMask]

theorem applyMask_nil {α : Type} (mask : List Bool) :
    applyMask ([] : List α) mask = [] := rfl

theorem applyMask_cons {α : Type} (x : α) (xs : List α) (b : Bool)
    (mask : List Bool) :
    applyMask (x :: xs) (b :: mask)
      = if b then x :: applyMask xs mask else applyMask xs mask := by
  cases b <;> simp [applyMask, List.filter_cons]

theorem applyMask_freqMask (freqs : Vec) (fmin fmax : ℚ) :
    applyMask freqs (freqMask freqs fmin fmax)
      = freqs.filter (fun f => decide (fmin ≤ f) && decide (f ≤ fmax)) := by
  induction freqs with
  | nil => rfl
  | cons f fs ih =>
    rw [freqMask_cons, applyMask_cons, List.filter_cons]
    cases hb : (decide (fmin ≤ f) && decide (f ≤ fmax)) <;> simp [hb, ih]

theorem applyMask_length {α : Type} (xs : List α) (mask : List Bool)
    (h : xs.length = mask.length) :
    (applyMask xs mask).length = mask.count true := by
  induction xs generalizing mask with
  | nil =>
    cases mask with
    | nil => rfl
    | cons b m => simp at h
  | cons x xs ih =>
    cases mask with
    | nil => simp at h
    | cons b m =>
      have h' : xs.length = m.length := by simpa using h
      rw [applyMask_cons]
      cases b <;> simp [List.count_cons, ih m h']

/-- C1: for every frequency vector, bounds `(fmin, fmax)` and power row
index-aligned with the frequencies, the masked frequency vector is
exactly the subsequence of frequencies `x` with `fmin ≤ x ≤ fmax` in
original order, and the masked power row has as many entries as there are
retained frequencies. -/
theorem mask_correctness (freqs row : Vec) (fmin fmax : ℚ)
    (h : row.length = freqs.length) :
    applyMask freqs (freqMask freqs fmin fmax)
        = freqs.filter (fun f => decide (fmin ≤ f ∧ f ≤ fmax))
      ∧ (applyMask row (freqMask freqs fmin fmax)).length
        = (freqs.filter (fun f => decide (fmin ≤ f ∧ f ≤ fmax))).length := by
  have hpred : (fun f : ℚ => decide (fmin ≤ f ∧ f ≤ fmax))
      = fun f : ℚ => decide (fmin ≤ f) && decide (f ≤ fmax) := by
    funext f
    by_cases h1 : fmin ≤ f <;> by_cases h2 : f ≤ fmax <;> simp [h1, h2]
  rw [hpred, applyMask_freqMask]
  refine ⟨rfl, ?_⟩
  rw [applyMask_length row _ (by rw [freqMask_length]; exact h),
    ← applyMask_freqMask freqs fmin fmax,
    applyMask_length freqs _ (freqMask_length freqs fmin fmax).symm]

/-- Witness for C1 at `freqs = [0,5,10,15,20]`, `row = [1,2,3,4,5]`,
`fmin = 5`, `fmax = 15`. -/
theorem mask_correctness_witness :
    ([(1 : ℚ), 2, 3, 4, 5].length = [(0 : ℚ), 5, 10, 15, 20].length)
      ∧ (applyMask [(0 : ℚ), 5, 10, 15, 20] (freqMask [0, 5, 10, 15, 20] 5 15)
          = [(0 : ℚ), 5, 10, 15, 20].filter (fun f => decide (5 ≤ f ∧ f ≤ 15))
        ∧ (applyMask [(1 : ℚ), 2, 3, 4, 5] (freqMask [0, 5, 10, 15, 20] 5 15)).length
          = ([(0 : ℚ), 5, 10, 15, 20].filter (fun f => decide (5 ≤ f ∧ f ≤ 15))).length) :=
  ⟨by decide, mask_correctness [0, 5, 10, 15, 20] [1, 2, 3, 4, 5] 5 15 (by decide)⟩

/-- C2: whenever projection is requested and a channel selection is
active, the matrix handed to the per-channel dispatch is the projection
matrix restricted to the selection on both axes left-multiplied with the
selected-channel data slice; and two-axis restriction genuinely differs
from one-axis restriction (shown at `P = [[1,2],[3,4]]`, `sel = [0]`). -/
theorem proj_selection_two_sided :
    (∀ (raw : Raw) (tmin tmax : ℚ) (sel : List ℕ),
      rawPrepData raw tmin tmax (some sel) true
        = matMul (colSelect (rowSelect raw.projMatrix sel) sel)
            (rawSlice raw (some sel) (raw.timeIndex tmin) (raw.timeIndex tmax)))
    ∧ colSelect (rowSelect [[(1 : ℚ), 2], [3, 4]] [0]) [0]
        ≠ rowSelect [[(1 : ℚ), 2], [3, 4]] [0] :=
  ⟨fun _ _ _ _ => rfl, by decide⟩

theorem compute_raw_psd_state_success (k : SpecPsd) (raw : Raw) (tmin tmax : ℚ)
    (picks : Option (List ℕ)) (fmin fmax : ℚ) (nfft njobs : ℕ) (proj : Bool)
    (st : PlotState) (out : List (Vec × Vec))
    (hok : mapE (fun d => k d raw.info.sfreq nfft)
        (rawPrepData raw tmin tmax picks proj) = .ok out) :
    (compute_raw_psd k raw tmin tmax picks fmin fmax nfft njobs false proj st).2
      = st := by
  unfold compute_raw_psd
  rcases hrw : runWorkers (pl_psd k raw.info.sfreq nfft)
      (rawPrepData raw tmin tmax picks proj) (pl_figure st).2 with ⟨r, st2⟩
  have h1 := runWorkers_fst (pl_psd k raw.info.sfreq nfft)
    (fun d => k d raw.info.sfreq nfft) (fun _ _ => rfl)
    (rawPrepData raw tmin tmax picks proj) (pl_figure st).2
  rw [hrw] at h1
  have hr : r = .ok out := h1.trans hok
  subst hr
  rcases runWorkers_snd (pl_psd k raw.info.sfreq nfft) (fun _ _ => ⟨1, rfl⟩)
      (rawPrepData raw tmin tmax picks proj) (pl_figure st).2 with ⟨m, hm⟩
  rw [hrw] at hm
  have hm' : st2 = drawN m (pl_figure st).2 := hm
  simp only [hrw]
  show pl_close (pl_figure st).1 st2 = st
  rw [hm']
  show pl_close (freshFigId st) (drawN m ⟨⟨freshFigId st, 0⟩ :: st.figs⟩) = st
  rw [drawN_cons]
  exact pl_close_fresh st (0 + m)

theorem compute_raw_psd_state_error (k : SpecPsd) (raw : Raw) (tmin tmax : ℚ)
    (picks : Option (List ℕ)) (fmin fmax : ℚ) (nfft njobs : ℕ)
    (plot proj : Bool) (st : PlotState) (e : String)
    (herr : mapE (fun d => k d raw.info.sfreq nfft)
        (rawPrepData raw tmin tmax picks proj) = .error e) :
    (compute_raw_psd k raw tmin tmax picks fmin fmax nfft njobs plot proj st).1
        = .error e
      ∧ freshFigId st ∈
          ((compute_raw_psd k raw tmin tmax picks fmin fmax nfft njobs plot
            proj st).2).figs.map Fig.id := by
  unfold compute_raw_psd
  rcases hrw : runWorkers (pl_psd k raw.info.sfreq nfft)
      (rawPrepData raw tmin tmax picks proj) (pl_figure st).2 with ⟨r, st2⟩
  have h1 := runWorkers_fst (pl_psd k raw.info.sfreq nfft)
    (fun d => k d raw.info.sfreq nfft) (fun _ _ => rfl)
    (rawPrepData raw tmin tmax picks proj) (pl_figure st).2
  rw [hrw] at h1
  have hr : r = .error e := h1.trans herr
  subst hr
  rcases runWorkers_snd (pl_psd k raw.info.sfreq nfft) (fun _ _ => ⟨1, rfl⟩)
      (rawPrepData raw tmin tmax picks proj) (pl_figure st).2 with ⟨m, hm⟩
  rw [hrw] at hm
  have hm' : st2 = drawN m (pl_figure st).2 := hm
  simp only [hrw]
  refine ⟨trivial, ?_⟩
  show freshFigId st ∈ st2.figs.map Fig.id
  rw [hm']
  rw [show drawN m (pl_figure st).2 = ⟨⟨freshFigId st, 0 + m⟩ :: st.figs⟩ from
    drawN_cons m ⟨freshFigId st, 0⟩ st.figs]
  simp

theorem compute_epochs_psd_state_success (k : SpecPsd) (epochs : Epochs)
    (sel : List ℕ) (fmin fmax : ℚ) (nfft njobs : ℕ) (st : PlotState)
    (out : List (Mat × Vec))
    (hok : mapE (fun ep => psdListVal k epochs.info.sfreq nfft fmin fmax
        (rowSelect ep sel)) epochs.data = .ok out) :
    (compute_epochs_psd k epochs (some sel) fmin fmax nfft njobs st).2 = st := by
  unfold compute_epochs_psd
  rcases hrw : runWorkers
      (fun data s =>
        _compute_psd k (rowSelect data sel) fmin fmax epochs.info.sfreq nfft s)
      epochs.data (pl_figure st).2 with ⟨r, st2⟩
  have h1 := runWorkers_fst _
    (fun ep => psdListVal k epochs.info.sfreq nfft fmin fmax (rowSelect ep sel))
    (fun ep s => _compute_psd_fst k (rowSelect ep sel) fmin fmax
      epochs.info.sfreq nfft s)
    epochs.data (pl_figure st).2
  rw [hrw] at h1
  have hr : r = .ok out := h1.trans hok
  subst hr
  rcases runWorkers_snd _
      (fun ep s => _compute_psd_snd k (rowSelect ep sel) fmin fmax
        epochs.info.sfreq nfft s)
      epochs.data (pl_figure st).2 with ⟨m, hm⟩
  rw [hrw] at hm
  have hm' : st2 = drawN m (pl_figure st).2 := hm
  simp only [hrw]
  cases out with
  | nil =>
    show pl_close (pl_figure st).1 st2 = st
    rw [hm']
    show pl_close (freshFigId st) (drawN m ⟨⟨freshFigId st, 0⟩ :: st.figs⟩) = st
    rw [drawN_cons]
    exact pl_close_fresh st (0 + m)
  | cons o rest =>
    show pl_close (pl_figure st).1 st2 = st
    rw [hm']
    show pl_close (freshFigId st) (drawN m ⟨⟨freshFigId st, 0⟩ :: st.figs⟩) = st
    rw [drawN_cons]
    exact pl_close_fresh st (0 + m)

/-- C8: whenever the black-box estimation fails on any single dispatched
unit (a channel signal for the continuous estimator, a channel of some
epoch for the segmented one), the top-level call returns an error and no
value — in particular no partial results from units that completed. -/
theorem error_propagation (k : SpecPsd) (raw : Raw) (epochs : Epochs)
    (tmin tmax fmin fmax fmin2 fmax2 : ℚ) (picks : Option (List ℕ))
    (sel : List ℕ) (nfft nfft2 njobs njobs2 : ℕ) (plot proj : Bool)
    (st st2 : PlotState) (d1 : Vec) (e1 : String)
    (hd1 : d1 ∈ rawPrepData raw tmin tmax picks proj)
    (he1 : k d1 raw.info.sfreq nfft = .error e1)
    (ep1 : Mat) (d2 : Vec) (e2 : String)
    (hep1 : ep1 ∈ epochs.data) (hd2 : d2 ∈ rowSelect ep1 sel)
    (he2 : k d2 epochs.info.sfreq nfft2 = .error e2) :
    (∃ e, (compute_raw_psd k raw tmin tmax picks fmin fmax nfft njobs plot
        proj st).1 = .error e)
      ∧ (∃ e, (compute_epochs_psd k epochs (some sel) fmin2 fmax2 nfft2
        njobs2 st2).1 = .error e) := by
  constructor
  · rcases mapE_error_of_mem (fun d => k d raw.info.sfreq nfft) _ d1 hd1 e1 he1
      with ⟨e, he⟩
    exact ⟨e, by rw [compute_raw_psd_fst]; simp [psdListVal, he]⟩
  · rcases mapE_error_of_mem (fun d => k d epochs.info.sfreq nfft2) _ d2 hd2 e2
      he2 with ⟨e3, he3⟩
    have hep : psdListVal k epochs.info.sfreq nfft2 fmin2 fmax2
        (rowSelect ep1 sel) = .error e3 := by
      simp [psdListVal, he3]
    rcases mapE_error_of_mem
      (fun ep => psdListVal k epochs.info.sfreq nfft2 fmin2 fmax2
        (rowSelect ep sel)) _ ep1 hep1 e3 hep with ⟨e4, he4⟩
    exact ⟨e4, by rw [compute_epochs_psd_fst]; simp [epochsVal, he4]⟩

/-- Witness for C8: five dispatched units, the second fails (`kFail2`
raises exactly on the signal `[2]`); both estimators return an error. -/
theorem error_propagation_witness :
    ([(2 : ℚ)] ∈ rawPrepData rawFive 0 0 none false
      ∧ kFail2 [2] rawFive.info.sfreq 256 = .error "boom"
      ∧ [[(2 : ℚ)]] ∈ epochsFive.data
      ∧ [(2 : ℚ)] ∈ rowSelect [[(2 : ℚ)]] [0]
      ∧ kFail2 [2] epochsFive.info.sfreq 256 = .error "boom")
    ∧ ((∃ e, (compute_raw_psd kFail2 rawFive 0 0 none 0 100 256 4 false false
        ⟨[]⟩).1 = .error e)
      ∧ (∃ e, (compute_epochs_psd kFail2 epochsFive (some [0]) 0 100 256 4
        ⟨[]⟩).1 = .error e)) :=
  ⟨⟨by decide, rfl, by decide, by decide, rfl⟩,
    error_propagation kFail2 rawFive epochsFive 0 0 0 100 0 100 none [0]
      256 256 4 4 false false ⟨[]⟩ ⟨[]⟩ [2] "boom" (by decide) rfl
      [[2]] [2] "boom" (by decide) (by decide) rfl⟩

theorem findResult_completed {α β : Type} (f : α → β) (xs : List α)
    (sched : List ℕ) (i : ℕ) (x : α) (hi : i ∈ sched)
    (hx : xs[i]? = some x) :
    findResult i (sched.filterMap (fun j => (xs[j]?).map (fun y => (j, f y))))
      = some (f x) := by
  induction sched with
  | nil => cases hi
  | cons j rest ih =>
    by_cases hji : j = i
    · subst hji
      simp only [List.filterMap_cons, hx, Option.map_some']
      simp [findResult]
    · rcases List.mem_cons.mp hi with rfl | hmem
      · exact absurd rfl hji
      · cases hj : xs[j]? with
        | none => simpa [List.filterMap_cons, hj] using ih hmem
        | some y =>
          simp only [List.filterMap_cons, hj, Option.map_some']
          simpa [findResult, hji] using ih hmem

/-- C4: the pooled dispatcher backend, run under an arbitrary completion
order that is a permutation of the task indices, returns exactly the
sequential map, index-aligned with the inputs; and the worker count
argument of both estimators does not affect their outcome (value or
final plotting state). -/
theorem dispatch_determinism {α β : Type} (f : α → β) (xs : List α)
    (sched : List ℕ) (hperm : sched.Perm (List.range xs.length))
    (k : SpecPsd) (raw : Raw) (epochs : Epochs) (tmin tmax fmin fmax : ℚ)
    (picks picks2 : Option (List ℕ)) (nfft njobs1 njobs2 : ℕ)
    (plot proj : Bool) (st st2 : PlotState) :
    pooledRun f xs sched = some (xs.map f)
      ∧ compute_raw_psd k raw tmin tmax picks fmin fmax nfft njobs1 plot proj st
        = compute_raw_psd k raw tmin tmax picks fmin fmax nfft njobs2 plot proj st
      ∧ compute_epochs_psd k epochs picks2 fmin fmax nfft njobs1 st2
        = compute_epochs_psd k epochs picks2 fmin fmax nfft njobs2 st2 := by
  refine ⟨?_, rfl, rfl⟩
  cases xs with
  | nil =>
    have hs : sched = [] := List.Perm.eq_nil (by simpa using hperm)
    subst hs
    rfl
  | cons x0 xt =>
    simp only [pooledRun]
    have hmem : ∀ i ∈ List.range (x0 :: xt).length,
        findResult i ((sched.filterMap
          (fun j => ((x0 :: xt)[j]?).map (fun y => (j, f y)))))
          = some ((fun i => f ((x0 :: xt).getD i x0)) i) := by
      intro i hi
      have hilt : i < (x0 :: xt).length := List.mem_range.mp hi
      have hget : (x0 :: xt)[i]? = some ((x0 :: xt).getD i x0) := by
        rw [List.getElem?_eq_getElem hilt]
        exact congrArg some (List.getD_eq_getElem (x0 :: xt) x0 hilt).symm
      exact findResult_completed f (x0 :: xt) sched i _ (hperm.mem_iff.mpr hi)
        hget
    rw [mapO_ok_of_forall _ (fun i => f ((x0 :: xt).getD i x0)) _ hmem]
    congr 1
    rw [show (fun i => f ((x0 :: xt).getD i x0))
        = f ∘ (fun i => (x0 :: xt).getD i x0) from rfl]
    rw [← List.map_map, getD_range_map]

/-- Witness for C4 at the completion order `[2, 0, 1]` of three tasks. -/
theorem dispatch_determinism_witness :
    ([2, 0, 1].Perm (List.range [5, 6, 7].length))
      ∧ (pooledRun (fun n => n * 2) [5, 6, 7] [2, 0, 1] = some [10, 12, 14]
        ∧ compute_raw_psd kGrid rawTwo 0 1 none 5 15 64 1 false false ⟨[]⟩
          = compute_raw_psd kGrid rawTwo 0 1 none 5 15 64 4 false false ⟨[]⟩
        ∧ compute_epochs_psd kGrid epochsTwo none 5 15 64 1 ⟨[]⟩
          = compute_epochs_psd kGrid epochsTwo none 5 15 64 4 ⟨[]⟩) :=
  ⟨by decide, by
    have h := dispatch_determinism (fun n : ℕ => n * 2) [5, 6, 7] [2, 0, 1]
      (by decide) kGrid rawTwo epochsTwo 0 1 5 15 none none 64 1 4 false false
      ⟨[]⟩ ⟨[]⟩
    exact ⟨h.1.trans (by decide), h.2.1, h.2.2⟩⟩

/-- C7: when no channel selection is given to the segmented estimator,
the selection resolves to exactly `pick_types` of the metadata — the
channels tagged physiological, excluding those flagged bad — and
membership in that default selection is characterised accordingly. -/
theorem default_picks_epochs :
    (∀ (k : SpecPsd) (epochs : Epochs) (fmin fmax : ℚ) (nfft njobs : ℕ)
        (st : PlotState),
      compute_epochs_psd k epochs none fmin fmax nfft njobs st
        = compute_epochs_psd k epochs (some (pick_types epochs.info)) fmin fmax
            nfft njobs st)
    ∧ (∀ (info : Info) (i : ℕ),
      i ∈ pick_types info
        ↔ i < info.nchan ∧ info.chTypes.getD i .other = .physiological
          ∧ i ∉ info.bads) := by
  refine ⟨fun _ _ _ _ _ _ _ => rfl, fun info i => ?_⟩
  simp [pick_types, List.mem_filter, List.mem_range, and_assoc]

/-- C9: with no selection given, the continuous estimator processes every
channel of the data source — the call is identical to selecting all row
indices, bad channels included — while the segmented default `pick_types`
excludes bad channels, so for metadata with a bad channel the two default
selections differ. -/
theorem default_selection_asymmetry (k : SpecPsd) (raw : Raw)
    (tmin tmax fmin fmax : ℚ) (nfft njobs : ℕ) (plot : Bool) (st : PlotState)
    (info : Info) (i : ℕ) (hi : i < info.nchan) (hbad : i ∈ info.bads) :
    compute_raw_psd k raw tmin tmax none fmin fmax nfft njobs plot false st
        = compute_raw_psd k raw tmin tmax
            (some (List.range raw.data.length)) fmin fmax nfft njobs plot
            false st
      ∧ pick_types info ≠ List.range info.nchan := by
  constructor
  · have hdata : rawPrepData raw tmin tmax none false
        = rawPrepData raw tmin tmax (some (List.range raw.data.length))
            false := by
      simp [rawPrepData, rawSlice, rowSelect_range_self]
    unfold compute_raw_psd
    rw [hdata]
  · intro heq
    have hmem : i ∈ pick_types info := heq ▸ List.mem_range.mpr hi
    have h2 := (List.mem_filter.mp hmem).2
    simp only [Bool.and_eq_true, decide_eq_true_eq] at h2
    exact h2.2 hbad

/-- Witness for C9 at metadata with two physiological channels, the
second flagged bad. -/
theorem default_selection_asymmetry_witness :
    (1 < infoBad.nchan ∧ 1 ∈ infoBad.bads)
      ∧ (compute_raw_psd kGrid rawTwo 0 1 none 5 15 64 1 false false ⟨[]⟩
          = compute_raw_psd kGrid rawTwo 0 1
              (some (List.range rawTwo.data.length)) 5 15 64 1 false false ⟨[]⟩
        ∧ pick_types infoBad ≠ List.range infoBad.nchan) :=
  ⟨⟨by decide, by decide⟩,
    default_selection_asymmetry kGrid rawTwo 0 1 5 15 64 1 false ⟨[]⟩ infoBad 1
      (by decide) (by decide)⟩

theorem psdListVal_ok_shape (k : SpecPsd) (Fs : ℚ) (nfft : ℕ) (fmin fmax : ℚ)
    (F : Vec) (data : Mat) (m : Mat) (fr : Vec)
    (hk : ∀ d ∈ data, kGoodb k Fs nfft F d = true)
    (hok : psdListVal k Fs nfft fmin fmax data = .ok (m, fr)) :
    m.length = data.length ∧ fr = applyMask F (freqMask F fmin fmax)
      ∧ ∀ row ∈ m, row.length = fr.length := by
  rw [psdListVal_of_good k Fs nfft fmin fmax F data hk] at hok
  cases data with
  | nil => cases hok
  | cons d rest =>
    rw [List.map_cons, stackMask_cons] at hok
    simp only [Except.ok.injEq, Prod.mk.injEq] at hok
    obtain ⟨hm, hfr⟩ := hok
    subst hm
    subst hfr
    refine ⟨by simp, rfl, ?_⟩
    intro row hrow
    rcases List.mem_map.mp hrow with ⟨r2, hr2, hrrow⟩
    rcases List.mem_map.mp hr2 with ⟨pr, hpr, hprr⟩
    have hpr2 : pr ∈ (d :: rest).map (fun d => (kPow k Fs nfft d, F)) := by
      rw [List.map_cons]
      exact hpr
    rcases List.mem_map.mp hpr2 with ⟨d2, hd2, hd2pr⟩
    have hlen := (kGoodb_spec k Fs nfft F d2 (hk d2 hd2)).2
    rw [← hrrow, ← hprr, ← hd2pr]
    show (applyMask (kPow k Fs nfft d2) (freqMask F fmin fmax)).length = _
    rw [applyMask_length _ _ (by rw [freqMask_length]; exact hlen),
      applyMask_length F _ (freqMask_length F fmin fmax).symm]

/-- C3: under the data-model invariant (the black box succeeds on every
dispatched unit with a common frequency grid `F` and power aligned with
`F`), a successful continuous call returns a power matrix with one row
per selected channel (duplicates preserved) whose rows all have the
length of the returned frequency vector, and a successful segmented call
returns one power matrix per epoch, each with one row per selected
channel and rows of the length of the returned frequency vector. -/
theorem output_shapes (k : SpecPsd) (raw : Raw) (epochs : Epochs)
    (tmin tmax fmin fmax fmin2 fmax2 : ℚ) (selr sel : List ℕ)
    (nfft nfft2 njobs njobs2 : ℕ) (plot proj : Bool) (st st2 : PlotState)
    (F Fe : Vec) (psd : Mat) (fr : Vec) (tensor : List Mat) (fre : Vec)
    (hkr : ∀ d ∈ rawPrepData raw tmin tmax (some selr) proj,
      kGoodb k raw.info.sfreq nfft F d = true)
    (hok : (compute_raw_psd k raw tmin tmax (some selr) fmin fmax nfft njobs
        plot proj st).1 = .ok (psd, fr))
    (hke : ∀ ep ∈ epochs.data, ∀ d ∈ rowSelect ep sel,
      kGoodb k epochs.info.sfreq nfft2 Fe d = true)
    (hoke : (compute_epochs_psd k epochs (some sel) fmin2 fmax2 nfft2 njobs2
        st2).1 = .ok (tensor, fre)) :
    psd.length = selr.length ∧ (∀ row ∈ psd, row.length = fr.length)
      ∧ tensor.length = epochs.data.length
      ∧ (∀ m ∈ tensor, m.length = sel.length
          ∧ ∀ row ∈ m, row.length = fre.length) := by
  rw [compute_raw_psd_fst] at hok
  rcases psdListVal_ok_shape k raw.info.sfreq nfft fmin fmax F _ psd fr hkr hok
    with ⟨hlen, _, hrows⟩
  have hepochs : tensor.length = epochs.data.length
      ∧ ∀ m ∈ tensor, m.length = sel.length
          ∧ ∀ row ∈ m, row.length = fre.length := by
    rw [compute_epochs_psd_fst] at hoke
    unfold epochsVal at hoke
    cases hmap : (mapE (fun ep => psdListVal k epochs.info.sfreq nfft2 fmin2
        fmax2 (rowSelect ep sel)) epochs.data) with
    | error e =>
      rw [hmap] at hoke
      cases hoke
    | ok out =>
      rw [hmap] at hoke
      cases out with
      | nil => cases hoke
      | cons o orest =>
        simp only [Except.ok.injEq, Prod.mk.injEq] at hoke
        obtain ⟨hten, hfre⟩ := hoke
        have hosnd : o.2 = applyMask Fe (freqMask Fe fmin2 fmax2) := by
          cases heps : epochs.data with
          | nil =>
            rw [heps] at hmap
            cases hmap
          | cons ep0 eprest =>
            rw [heps] at hmap
            rcases mapE_ok_cons_inv _ _ _ _ hmap with ⟨b, bs, hb, _, hcons⟩
            have hob : o = b := by
              have h1 := congrArg (fun l => l.headD b) hcons
              simpa using h1
            have hsh0 := psdListVal_ok_shape k epochs.info.sfreq nfft2 fmin2
              fmax2 Fe (rowSelect ep0 sel) b.1 b.2
              (hke ep0 (by rw [heps]; simp)) hb
            rw [hob]
            exact hsh0.2.1
        constructor
        · rw [← hten, List.length_map]
          exact mapE_ok_length _ _ _ hmap
        · intro m hm
          rw [← hten] at hm
          rcases List.mem_map.mp hm with ⟨e, he, hem⟩
          rcases mapE_ok_mem_inv _ _ _ hmap e he with ⟨ep, hep, hgep⟩
          have hshape := psdListVal_ok_shape k epochs.info.sfreq nfft2 fmin2
            fmax2 Fe (rowSelect ep sel) e.1 e.2 (hke ep hep) hgep
          constructor
          · rw [← hem, hshape.1, rowSelect_length]
          · intro row hrow
            rw [← hem] at hrow
            have hr := hshape.2.2 row hrow
            rw [hr, hshape.2.1, ← hosnd, hfre]
  exact ⟨by rw [hlen, rawPrepData_some_length], hrows, hepochs.1, hepochs.2⟩

/-- Witness for C3: two channels of five samples, grid `[0,5,10,15,20]`,
band `[5,15]`; shapes are 2 by 3 (continuous) and 1 by 2 by 3
(segmented). -/
theorem output_shapes_witness :
    ((∀ d ∈ rawPrepData rawTwo 0 1 (some [0, 1]) false,
        kGoodb kGrid rawTwo.info.sfreq 64 [0, 5, 10, 15, 20] d = true)
      ∧ (compute_raw_psd kGrid rawTwo 0 1 (some [0, 1]) 5 15 64 1 false false
          ⟨[]⟩).1 = .ok ([[2, 3, 4], [7, 8, 9]], [5, 10, 15])
      ∧ (∀ ep ∈ epochsTwo.data, ∀ d ∈ rowSelect ep [0, 1],
        kGoodb kGrid epochsTwo.info.sfreq 64 [0, 5, 10, 15, 20] d = true)
      ∧ (compute_epochs_psd kGrid epochsTwo (some [0, 1]) 5 15 64 1 ⟨[]⟩).1
          = .ok ([[[2, 3, 4], [7, 8, 9]]], [5, 10, 15]))
    ∧ (([[(2 : ℚ), 3, 4], [7, 8, 9]] : Mat).length = [0, 1].length
      ∧ (∀ row ∈ ([[(2 : ℚ), 3, 4], [7, 8, 9]] : Mat),
          row.length = [(5 : ℚ), 10, 15].length)
      ∧ ([[[(2 : ℚ), 3, 4], [7, 8, 9]]] : List Mat).length
          = epochsTwo.data.length
      ∧ (∀ m ∈ ([[[(2 : ℚ), 3, 4], [7, 8, 9]]] : List Mat),
          m.length = [0, 1].length
            ∧ ∀ row ∈ m, row.length = [(5 : ℚ), 10, 15].length)) :=
  ⟨⟨by decide, rfl, by decide, rfl⟩,
    output_shapes kGrid rawTwo epochsTwo 0 1 5 15 5 15 [0, 1] [0, 1] 64 64 1 1
      false false ⟨[]⟩ ⟨[]⟩ [0, 5, 10, 15, 20] [0, 5, 10, 15, 20]
      [[2, 3, 4], [7, 8, 9]] [5, 10, 15] [[[2, 3, 4], [7, 8, 9]]] [5, 10, 15]
      (by decide) rfl (by decide) rfl⟩

theorem psdListVal_ok_freqs (k : SpecPsd) (Fs : ℚ) (nfft : ℕ) (fmin fmax : ℚ)
    (d0 : Vec) (drest : Mat) (p0 F0 : Vec) (m : Mat) (fr : Vec)
    (hk0 : k d0 Fs nfft = .ok (p0, F0))
    (hok : psdListVal k Fs nfft fmin fmax (d0 :: drest) = .ok (m, fr)) :
    fr = applyMask F0 (freqMask F0 fmin fmax) := by
  unfold psdListVal at hok
  cases hmap : (mapE (fun d => k d Fs nfft) (d0 :: drest)) with
  | error e =>
    rw [hmap] at hok
    cases hok
  | ok out =>
    rw [hmap] at hok
    rcases mapE_ok_cons_inv _ _ _ _ hmap with ⟨b, bs, hb, _, hcons⟩
    have hbv : b = (p0, F0) := by
      rw [hk0] at hb
      cases hb
      rfl
    subst hcons
    have hok2 : stackMask (b :: bs) fmin fmax = .ok (m, fr) := hok
    rw [stackMask_cons] at hok2
    simp only [Except.ok.injEq, Prod.mk.injEq] at hok2
    rw [← hok2.2, hbv]

/-- C6: both estimators return as frequency vector the (masked) frequency
vector of the first dispatched unit — the first channel for the
continuous estimator, the first channel of the first epoch for the
segmented one — regardless of what frequency vectors the remaining units
produce (no equality check). -/
theorem first_unit_freqs (k : SpecPsd) (raw : Raw) (epochs : Epochs)
    (tmin tmax fmin fmax fmin2 fmax2 : ℚ) (picks : Option (List ℕ))
    (sel : List ℕ) (nfft nfft2 njobs njobs2 : ℕ) (plot proj : Bool)
    (st st2 : PlotState) (d0 : Vec) (drest : Mat) (p0 F0 : Vec) (psd : Mat)
    (fr : Vec) (ep0 : Mat) (eprest : List Mat) (d0e : Vec) (dreste : Mat)
    (p0e F0e : Vec) (tensor : List Mat) (fre : Vec)
    (hdata : rawPrepData raw tmin tmax picks proj = d0 :: drest)
    (hk0 : k d0 raw.info.sfreq nfft = .ok (p0, F0))
    (hok : (compute_raw_psd k raw tmin tmax picks fmin fmax nfft njobs plot
        proj st).1 = .ok (psd, fr))
    (heps : epochs.data = ep0 :: eprest)
    (hrow : rowSelect ep0 sel = d0e :: dreste)
    (hk0e : k d0e epochs.info.sfreq nfft2 = .ok (p0e, F0e))
    (hoke : (compute_epochs_psd k epochs (some sel) fmin2 fmax2 nfft2 njobs2
        st2).1 = .ok (tensor, fre)) :
    fr = applyMask F0 (freqMask F0 fmin fmax)
      ∧ fre = applyMask F0e (freqMask F0e fmin2 fmax2) := by
  constructor
  · rw [compute_raw_psd_fst, hdata] at hok
    exact psdListVal_ok_freqs k raw.info.sfreq nfft fmin fmax d0 drest p0 F0
      psd fr hk0 hok
  · rw [compute_epochs_psd_fst] at hoke
    unfold epochsVal at hoke
    rw [heps] at hoke
    cases hmap : (mapE (fun ep => psdListVal k epochs.info.sfreq nfft2 fmin2
        fmax2 (rowSelect ep sel)) (ep0 :: eprest)) with
    | error e =>
      rw [hmap] at hoke
      cases hoke
    | ok out =>
      rw [hmap] at hoke
      rcases mapE_ok_cons_inv _ _ _ _ hmap with ⟨b, bs, hb, _, hcons⟩
      subst hcons
      simp only [Except.ok.injEq, Prod.mk.injEq] at hoke
      rw [← hoke.2]
      rw [hrow] at hb
      exact psdListVal_ok_freqs k epochs.info.sfreq nfft2 fmin2 fmax2 d0e
        dreste p0e F0e b.1 b.2 hk0e hb

/-- Witness for C6: the two channels report different frequency grids
(`[100]` for the first, `[200]` for the second); both estimators return
the first unit's masked grid `[100]` and discard `[200]` without any
check. -/
theorem first_unit_freqs_witness :
    (rawPrepData rawVar 0 0 none false = [1] :: [[2]]
      ∧ kVarF [1] rawVar.info.sfreq 64 = .ok ([9], [100])
      ∧ (compute_raw_psd kVarF rawVar 0 0 none 0 1000 64 1 false false
          ⟨[]⟩).1 = .ok ([[9], [8]], [100])
      ∧ epochsVar.data = [[1], [2]] :: []
      ∧ rowSelect [[1], [2]] [0, 1] = [1] :: [[2]]
      ∧ kVarF [1] epochsVar.info.sfreq 64 = .ok ([9], [100])
      ∧ (compute_epochs_psd kVarF epochsVar (some [0, 1]) 0 1000 64 1
          ⟨[]⟩).1 = .ok ([[[9], [8]]], [100]))
    ∧ ([(100 : ℚ)] = applyMask [100] (freqMask [100] 0 1000)
      ∧ [(100 : ℚ)] = applyMask [100] (freqMask [100] 0 1000)) :=
  ⟨⟨by decide, rfl, rfl, by decide, by decide, rfl, rfl⟩,
    first_unit_freqs kVarF rawVar epochsVar 0 0 0 1000 0 1000 none [0, 1]
      64 64 1 1 false false ⟨[]⟩ ⟨[]⟩ [1] [[2]] [9] [100] [[9], [8]] [100]
      [[1], [2]] [] [1] [[2]] [9] [100] [[[9], [8]]] [100]
      (by decide) rfl rfl (by decide) (by decide) rfl rfl⟩

/-- C10: if a dispatched per-unit estimation fails, the continuous
estimator propagates the error while the figure it created before
dispatch — whose number is fresh, hence not open beforehand — remains
open in the plotting state, even when `plot` was not requested (the
`pl.close` call is only reached on the success path). -/
theorem figure_leak_on_error (k : SpecPsd) (raw : Raw)
    (tmin tmax fmin fmax : ℚ) (picks : Option (List ℕ)) (nfft njobs : ℕ)
    (plot proj : Bool) (st : PlotState) (d1 : Vec) (e1 : String)
    (hd1 : d1 ∈ rawPrepData raw tmin tmax picks proj)
    (he1 : k d1 raw.info.sfreq nfft = .error e1) :
    (∃ e, (compute_raw_psd k raw tmin tmax picks fmin fmax nfft njobs plot
        proj st).1 = .error e)
      ∧ freshFigId st ∈ ((compute_raw_psd k raw tmin tmax picks fmin fmax
          nfft njobs plot proj st).2).figs.map Fig.id
      ∧ freshFigId st ∉ st.figs.map Fig.id := by
  rcases mapE_error_of_mem (fun d => k d raw.info.sfreq nfft) _ d1 hd1 e1 he1
    with ⟨e, he⟩
  rcases compute_raw_psd_state_error k raw tmin tmax picks fmin fmax nfft
    njobs plot proj st e he with ⟨h1, h2⟩
  exact ⟨⟨e, h1⟩, h2, freshFigId_not_mem st⟩

/-- Witness for C10: `plot = false`, empty initial plotting state, second
of five units fails; the call errors and figure 1 is left open. -/
theorem figure_leak_on_error_witness :
    ([(2 : ℚ)] ∈ rawPrepData rawFive 0 0 none false
      ∧ kFail2 [2] rawFive.info.sfreq 256 = .error "boom")
    ∧ ((∃ e, (compute_raw_psd kFail2 rawFive 0 0 none 0 100 256 1 false false
        ⟨[]⟩).1 = .error e)
      ∧ freshFigId ⟨[]⟩ ∈ ((compute_raw_psd kFail2 rawFive 0 0 none 0 100 256
          1 false false ⟨[]⟩).2).figs.map Fig.id
      ∧ freshFigId ⟨[]⟩ ∉ ((⟨[]⟩ : PlotState).figs).map Fig.id) :=
  ⟨⟨by decide, rfl⟩,
    figure_leak_on_error kFail2 rawFive 0 0 0 100 none 256 1 false false ⟨[]⟩
      [2] "boom" (by decide) rfl⟩

/-- Counterexample to C5: a successful continuous-estimation call with
plotting requested leaves the figure it created (and drew into inside the
worker invocations) open — an observable side effect on the shared
plotting state. -/
theorem no_plot_side_effects_cex :
    (compute_raw_psd kGrid rawTwo 0 1 none 5 15 64 1 true false ⟨[]⟩).2
      ≠ (⟨[]⟩ : PlotState) := by decide

/-- C5 (amended): estimation does touch shared plotting state — each
estimator creates a figure before dispatch and the worker function draws
into it — but on the success path the segmented estimator always, and the
continuous estimator whenever plotting was not requested, closes that
figure again, restoring the plotting state it changed exactly. -/
theorem plot_state_restored (k : SpecPsd) (raw : Raw) (epochs : Epochs)
    (tmin tmax fmin fmax fmin2 fmax2 : ℚ) (picks : Option (List ℕ))
    (sel : List ℕ) (nfft nfft2 njobs njobs2 : ℕ) (proj : Bool)
    (st st2 : PlotState) (pr : Mat × Vec) (pe : List Mat × Vec)
    (hok : (compute_raw_psd k raw tmin tmax picks fmin fmax nfft njobs false
        proj st).1 = .ok pr)
    (hoke : (compute_epochs_psd k epochs (some sel) fmin2 fmax2 nfft2 njobs2
        st2).1 = .ok pe) :
    (compute_raw_psd k raw tmin tmax picks fmin fmax nfft njobs false proj
        st).2 = st
      ∧ (compute_epochs_psd k epochs (some sel) fmin2 fmax2 nfft2 njobs2
        st2).2 = st2 := by
  constructor
  · cases hmapc : (mapE (fun d => k d raw.info.sfreq nfft)
        (rawPrepData raw tmin tmax picks proj)) with
    | error e =>
      exfalso
      rw [compute_raw_psd_fst] at hok
      unfold psdListVal at hok
      rw [hmapc] at hok
      cases hok
    | ok out =>
      exact compute_raw_psd_state_success k raw tmin tmax picks fmin fmax nfft
        njobs proj st out hmapc
  · cases hmape : (mapE (fun ep => psdListVal k epochs.info.sfreq nfft2 fmin2
        fmax2 (rowSelect ep sel)) epochs.data) with
    | error e =>
      exfalso
      rw [compute_epochs_psd_fst] at hoke
      unfold epochsVal at hoke
      rw [hmape] at hoke
      cases hoke
    | ok out =>
      exact compute_epochs_psd_state_success k epochs sel fmin2 fmax2 nfft2
        njobs2 st2 out hmape

/-- Witness for C5 (amended): successful calls with `plot = false` and an
empty initial plotting state end with the plotting state unchanged. -/
theorem plot_state_restored_witness :
    ((compute_raw_psd kGrid rawTwo 0 1 none 5 15 64 1 false false ⟨[]⟩).1
        = .ok ([[2, 3, 4], [7, 8, 9]], [5, 10, 15])
      ∧ (compute_epochs_psd kGrid epochsTwo (some [0, 1]) 5 15 64 1 ⟨[]⟩).1
        = .ok ([[[2, 3, 4], [7, 8, 9]]], [5, 10, 15]))
    ∧ ((compute_raw_psd kGrid rawTwo 0 1 none 5 15 64 1 false false
        ⟨[]⟩).2 = ⟨[]⟩
      ∧ (compute_epochs_psd kGrid epochsTwo (some [0, 1]) 5 15 64 1
        ⟨[]⟩).2 = ⟨[]⟩) :=
  ⟨⟨rfl, rfl⟩,
    plot_state_restored kGrid rawTwo epochsTwo 0 1 5 15 5 15 none [0, 1]
      64 64 1 1 false ⟨[]⟩ ⟨[]⟩ ([[2, 3, 4], [7, 8, 9]], [5, 10, 15])
      ([[[2, 3, 4], [7, 8, 9]]], [5, 10, 15]) rfl rfl⟩

end MNE
